import Mathlib

/-!
# Pennybase: a shallow embedding of the core, with the spec's claims settled

This file embeds the core of the Pennybase backend (Go) in Lean 4:
the append-only versioned row log (`csvDB`), the schema projection
(`Schema.Record` / `Schema.Resource`), the collection store's update path,
the authorization evaluator (`Store.Authorize`) and the session signer
(`SignSession` / `VerifySession`).

Modelling conventions, fixed once here:

* Go `int64` is modelled by `Int`.  Versions in every reachable state stay
  far below `2^63`, so two's-complement wrap-around is out of scope.
* `strconv.FormatInt(n, 10)` / `strconv.ParseInt(s, 10, 64)` are modelled by
  `formatInt` / `parseInt?` below (decimal syntax; the `int64` range error,
  which no reachable call can hit, is not modelled).
* The CSV layer (`encoding/csv`) is abstracted: a log file is the list of
  rows written to it, in order, and byte offsets become row indices.  The
  Go library's write-then-read identity on records is assumed exact.
* Go's `float64` is abstracted to a type parameter `N` (a linear order with
  a zero); where a claim needs the `%g` / `ParseFloat` round trip it is a
  hypothesis, instantiated concretely in witnesses.  Comparisons with the
  IEEE specials (`NaN`, infinities) are outside the model.
* A Go run-time panic (out-of-range slice index, failed type assertion) is
  a distinct outcome, kept apart from returned errors.
-/

namespace Pennybase

/-! ## Decimal integers: Go `strconv.FormatInt` and `strconv.ParseInt` -/

/-- The decimal digit character for `n < 10`. -/
def digitChar (n : Nat) : Char := Char.ofNat (48 + n)

/-- Decimal digits of `n`, most significant first, prepended to `acc`.
Structurally recursive on a fuel argument so that it reduces in the kernel;
any fuel above `n` is enough. -/
def toDecAux : Nat → Nat → List Char → List Char
  | 0, _, acc => acc
  | f + 1, n, acc =>
    if n < 10 then digitChar n :: acc
    else toDecAux f (n / 10) (digitChar (n % 10) :: acc)

/-- Decimal digits of `n`, most significant first. -/
def toDec (n : Nat) : List Char := toDecAux (n + 1) n []

/-- Models Go `strconv.FormatInt(n, 10)`. -/
def formatInt (n : Int) : String :=
  if n < 0 then ⟨'-' :: toDec n.natAbs⟩ else ⟨toDec n.natAbs⟩

/-- Is `c` a decimal digit (`'0' ≤ c ≤ '9'`)? -/
def isDig (c : Char) : Bool := 48 ≤ c.toNat && c.toNat ≤ 57

/-- Numeric value of a digit character. -/
def digVal (c : Char) : Nat := c.toNat - 48

/-- Left fold over decimal digit characters; `none` on a non-digit. -/
def parseDigits : List Char → Nat → Option Nat
  | [], v => some v
  | c :: cs, v => if isDig c then parseDigits cs (v * 10 + digVal c) else none

/-- Character-level body of `parseInt?`. -/
def parseIntChars : List Char → Option Int
  | [] => none
  | c :: cs =>
    if c = '-' then
      if cs = [] then none
      else Option.map (fun k : Nat => -(k : Int)) (parseDigits cs 0)
    else if c = '+' then
      if cs = [] then none
      else Option.map (fun k : Nat => (k : Int)) (parseDigits cs 0)
    else Option.map (fun k : Nat => (k : Int)) (parseDigits (c :: cs) 0)

/-- Models Go `strconv.ParseInt(s, 10, 64)`: `some n` on success, `none`
where Go reports an error (empty input, bare sign, a non-digit).  The
`int64` range check is not modelled (see the header). -/
def parseInt? (s : String) : Option Int := parseIntChars s.data

/-- Models Go's pattern of using `ParseInt`'s value while ignoring its
error: the parsed value, or `0`. -/
def parseIntD (s : String) : Int := (parseInt? s).getD 0

lemma digitChar_facts (d : Nat) (h : d < 10) :
    isDig (digitChar d) = true ∧ digVal (digitChar d) = d ∧
      digitChar d ≠ '-' ∧ digitChar d ≠ '+' := by
  interval_cases d <;> exact ⟨by decide, by decide, by decide, by decide⟩

lemma toDecAux_shape :
    ∀ (f n : Nat) (acc : List Char), n < f →
      ∃ d cs, toDecAux f n acc = digitChar d :: cs ∧ d < 10 := by
  intro f
  induction f with
  | zero => omega
  | succ f ih =>
    intro n acc hn
    rw [toDecAux]
    by_cases h : n < 10
    · exact ⟨n, acc, by simp [h], h⟩
    · simp only [h, if_false]
      exact ih (n / 10) _ (by omega)

lemma parseDigits_toDecAux :
    ∀ (f n : Nat), n < f → ∀ (acc : List Char) (v : Nat), ∃ p, 0 < p ∧
      parseDigits (toDecAux f n acc) v = parseDigits acc (v * p + n) := by
  intro f
  induction f with
  | zero => omega
  | succ f ih =>
    intro n hn acc v
    rw [toDecAux]
    by_cases h : n < 10
    · refine ⟨10, by omega, ?_⟩
      obtain ⟨h1, h2, -, -⟩ := digitChar_facts n h
      simp [h, parseDigits, h1, h2]
    · simp only [h, if_false]
      obtain ⟨p, hp, heq⟩ := ih (n / 10) (by omega) (digitChar (n % 10) :: acc) v
      refine ⟨p * 10, by omega, ?_⟩
      rw [heq]
      obtain ⟨h1, h2, -, -⟩ := digitChar_facts (n % 10) (Nat.mod_lt _ (by omega))
      simp only [parseDigits, h1, if_true, h2]
      congr 1
      have := Nat.div_add_mod n 10
      ring_nf
      omega

lemma parseDigits_toDec (n : Nat) : parseDigits (toDec n) 0 = some n := by
  obtain ⟨p, _, h⟩ := parseDigits_toDecAux (n + 1) n (by omega) [] 0
  rw [toDec, h]
  simp [parseDigits]

lemma toDec_shape (n : Nat) :
    ∃ d cs, toDec n = digitChar d :: cs ∧ d < 10 :=
  toDecAux_shape (n + 1) n [] (by omega)

lemma data_mk (l : List Char) : (⟨l⟩ : String).data = l := rfl

/-- Go's `FormatInt` / `ParseInt` round trip. -/
lemma parseInt_formatInt (n : Int) : parseInt? (formatInt n) = some n := by
  by_cases hn : n < 0
  · have hne : toDec n.natAbs ≠ [] := by
      obtain ⟨d, cs, h, -⟩ := toDec_shape n.natAbs
      simp [h]
    have hdata : (formatInt n).data = '-' :: toDec n.natAbs := by
      rw [formatInt, if_pos hn, data_mk]
    rw [parseInt?, hdata, parseIntChars]
    rw [if_pos rfl, if_neg hne, parseDigits_toDec, Option.map_some']
    congr 1
    omega
  · obtain ⟨d, cs, h, hd⟩ := toDec_shape n.natAbs
    obtain ⟨-, -, hm, hp⟩ := digitChar_facts d hd
    have hdata : (formatInt n).data = digitChar d :: cs := by
      rw [formatInt, if_neg hn, data_mk, h]
    rw [parseInt?, hdata, parseIntChars, if_neg hm, if_neg hp, ← h,
      parseDigits_toDec, Option.map_some']
    congr 1
    omega

example : formatInt 0 = "0" := by decide
example : formatInt 12 = "12" := by decide
example : formatInt (-3) = "-3" := by decide
example : parseIntD "1" = 1 := by decide
example : parseIntD "0" = 0 := by decide

/-! ## Go `strings.Split` and `strings.Join` for one-character separators -/

/-- Character-level body of Go `strings.Split(s, string(sep))`. -/
def splitOnChar (sep : Char) : List Char → List (List Char)
  | [] => [[]]
  | c :: rest =>
    match splitOnChar sep rest with
    | [] => [[]]
    | g :: gs => if c = sep then [] :: g :: gs else (c :: g) :: gs

/-- Character-level body of Go `strings.Join(l, string(sep))`. -/
def joinChar (sep : Char) : List (List Char) → List Char
  | [] => []
  | [x] => x
  | x :: xs => x ++ sep :: joinChar sep xs

/-- Models Go `strings.Split(s, string(sep))`. -/
def goSplit (sep : Char) (s : String) : List String :=
  (splitOnChar sep s.data).map (fun l => ⟨l⟩)

/-- Models Go `strings.Join(l, string(sep))`. -/
def goJoin (sep : Char) (l : List String) : String :=
  ⟨joinChar sep (l.map String.data)⟩

lemma splitOnChar_ne_nil (sep : Char) (cs : List Char) :
    splitOnChar sep cs ≠ [] := by
  cases cs with
  | nil => simp [splitOnChar]
  | cons c rest =>
    rw [splitOnChar]
    rcases h : splitOnChar sep rest with - | ⟨g, gs⟩
    · simp
    · by_cases hc : c = sep <;> simp [hc]

lemma joinChar_splitOnChar (sep : Char) (cs : List Char) :
    joinChar sep (splitOnChar sep cs) = cs := by
  induction cs with
  | nil => rfl
  | cons c rest ih =>
    rw [splitOnChar]
    rcases h : splitOnChar sep rest with - | ⟨g, gs⟩
    · exact absurd h (splitOnChar_ne_nil sep rest)
    · rw [h] at ih
      by_cases hc : c = sep
      · simp only [hc, if_pos rfl]
        cases gs <;> simpa [joinChar] using ih
      · simp only [if_neg hc]
        cases gs <;> simpa [joinChar] using ih

lemma splitOnChar_sepFree (sep : Char) (cs : List Char) (h : sep ∉ cs) :
    splitOnChar sep cs = [cs] := by
  induction cs with
  | nil => rfl
  | cons c rest ih =>
    rw [splitOnChar, ih (by simp at h; exact h.2)]
    have hc : c ≠ sep := by simp at h; exact fun he => h.1 he.symm
    simp [hc]

lemma splitOnChar_sep_append (sep : Char) (x r : List Char) (hx : sep ∉ x) :
    splitOnChar sep (x ++ sep :: r) = x :: splitOnChar sep r := by
  induction x with
  | nil =>
    rw [List.nil_append, splitOnChar]
    rcases h : splitOnChar sep r with - | ⟨g, gs⟩
    · exact absurd h (splitOnChar_ne_nil sep r)
    · simp
  | cons c x ih =>
    have hc : c ≠ sep := by simp at hx; exact fun he => hx.1 he.symm
    have hx2 : sep ∉ x := by simp at hx; exact hx.2
    rw [List.cons_append, splitOnChar, ih hx2]
    simp [hc]

lemma splitOnChar_joinChar (sep : Char) (l : List (List Char))
    (h1 : l ≠ []) (hfree : ∀ x ∈ l, sep ∉ x) :
    splitOnChar sep (joinChar sep l) = l := by
  induction l with
  | nil => exact absurd rfl h1
  | cons x xs ih =>
    cases xs with
    | nil => exact splitOnChar_sepFree sep x (hfree x (by simp))
    | cons y ys =>
      have hj : joinChar sep (x :: y :: ys) = x ++ sep :: joinChar sep (y :: ys) := rfl
      rw [hj, splitOnChar_sep_append sep x _ (hfree x (by simp))]
      rw [ih (by simp) (fun z hz => hfree z (by simp [hz]))]

lemma joinChar_ne_nil (sep : Char) (l : List (List Char))
    (h1 : l ≠ []) (h2 : l ≠ [[]]) : joinChar sep l ≠ [] := by
  rcases l with - | ⟨x, - | ⟨y, ys⟩⟩
  · exact absurd rfl h1
  · intro hx
    rw [joinChar] at hx
    exact h2 (by rw [hx])
  · simp [joinChar]

lemma mk_data (s : String) : (⟨s.data⟩ : String) = s := rfl

lemma goSplit_goJoin (sep : Char) (l : List String) (h1 : l ≠ [])
    (hfree : ∀ x ∈ l, sep ∉ x.data) :
    goSplit sep (goJoin sep l) = l := by
  rw [goSplit, goJoin, data_mk,
    splitOnChar_joinChar sep (l.map String.data) (by simpa using h1)
      (by intro x hx; simp at hx; obtain ⟨s, hs, rfl⟩ := hx; exact hfree s hs)]
  rw [List.map_map]
  have : (fun c => (⟨c⟩ : String)) ∘ String.data = id := by
    funext s
    exact mk_data s
  rw [this, List.map_id]

lemma goJoin_ne_empty (sep : Char) (l : List String) (h1 : l ≠ [])
    (h2 : l ≠ [""]) : goJoin sep l ≠ "" := by
  intro h
  have hd : joinChar sep (l.map String.data) = [] := congrArg String.data h
  refine joinChar_ne_nil sep (l.map String.data) (by simpa using h1) ?_ hd
  intro hl
  rcases l with - | ⟨x, xs⟩
  · exact h1 rfl
  · simp only [List.map_cons, List.cons.injEq] at hl
    obtain ⟨hx, hxs⟩ := hl
    apply h2
    have : x = "" := congrArg (fun c => (⟨c⟩ : String)) hx
    simp only [List.map_eq_nil_iff] at hxs
    rw [this, hxs]

/-! ## The Row Log: Go `csvDB` (src/pennybase.go:126-261)

A `Record` is Go's `type Record []string`.  `fld r i` is Go's `r[i]`; it is
only used where the surrounding definition has already established the bound
(Go's out-of-range panic is modelled explicitly at each call site). -/

/-- Go `type Record []string`. -/
abbrev Record := List String

/-- Go `r[i]`, used only where `i < r.length` is already established. -/
def fld (r : Record) (i : Nat) : String := r.getD i ""

/-- Pointwise update of a map modelled as a function. -/
def upd {α : Type} (f : String → α) (k : String) (v : α) : String → α :=
  fun x => if x = k then v else f x

/-- Go `csvDB`: the rows written to the file (CSV layer abstracted, see the
header), the offset index (offsets are row positions) and the version index.
`index` is a partial map — Go checks key presence in `Get`; `version` is
total with Go's map zero-value default of `0`. -/
structure LogState where
  file : List Record
  index : String → Option Nat
  version : String → Int

/-- A freshly created, empty log. -/
def emptyLog : LogState := ⟨[], fun _ => none, fun _ => 0⟩

/-- The error values the row log returns. -/
inductive DBErr where
  | invalidRecord
  | invalidVersion
  | notFound
  | corruptedIndex
  | readPastEOF
  | intParse
deriving DecidableEq, Repr

/-- Outcome of a mutating row-log call: success or a returned error, each
with the state after the call (Go `append` can mutate and still return an
error), or a run-time panic. -/
inductive DBOut where
  | ok : LogState → DBOut
  | err : DBErr → LogState → DBOut
  | crash : LogState → DBOut

/-- Go `csvDB.append` (src/pennybase.go:166): write the row at the end,
point the index at it, store `ParseInt` of field 1 as the version, and
return `ParseInt`'s error.  Callers only pass rows of length ≥ 2. -/
def csvAppend (st : LogState) (r : Record) : LogState × Option DBErr :=
  ({ file := st.file ++ [r],
     index := upd st.index (fld r 0) (some st.file.length),
     version := upd st.version (fld r 0) (parseIntD (fld r 1)) },
   if (parseInt? (fld r 1)).isSome then none else some DBErr.intParse)

/-- `csvAppend` packaged as a `DBOut`. -/
def appendOut (st : LogState) (r : Record) : DBOut :=
  match csvAppend st r with
  | (st2, none) => .ok st2
  | (st2, some e) => .err e st2

/-- Go `csvDB.Create` (src/pennybase.go:178).  Go reads `r[0]` and `r[1]`
unconditionally, so a row shorter than two fields panics — except that an
empty field 0 short-circuits before `r[1]` is read. -/
def csvCreate (st : LogState) (r : Record) : DBOut :=
  match r with
  | [] => .crash st
  | [x] => if x = "" then .err .invalidRecord st else .crash st
  | x :: v :: _ =>
    if x = "" ∨ v ≠ "1" ∨ st.version x ≠ 0 then .err .invalidRecord st
    else appendOut st r

/-- Go `csvDB.Update` (src/pennybase.go:187): rejects an empty row, panics
on a one-field row (`r[1]`), and otherwise requires field 1 to render
`current version + 1`.  There is no `current version ≥ 1` floor. -/
def csvUpdate (st : LogState) (r : Record) : DBOut :=
  match r with
  | [] => .err .invalidVersion st
  | [_] => .crash st
  | x :: v :: _ =>
    if v ≠ formatInt (st.version x + 1) then .err .invalidVersion st
    else appendOut st r

/-- Go `csvDB.Delete` (src/pennybase.go:196). -/
def csvDelete (st : LogState) (id : String) : DBOut :=
  if st.version id < 1 then .err .notFound st
  else appendOut st [id, "0"]

/-- Outcome of `Get`: `ok none` is Go's `(nil, nil)` return. -/
inductive GetOut where
  | ok : Option Record → GetOut
  | err : DBErr → GetOut
deriving DecidableEq, Repr

/-- Go `csvDB.Get` (src/pennybase.go:205): version floor, index lookup, read
of the indexed row, identifier check. -/
def csvGet (st : LogState) (id : String) : GetOut :=
  if st.version id < 1 then .err .notFound
  else
    match st.index id with
    | none => .ok none
    | some off =>
      match st.file.get? off with
      | none => .err .readPastEOF
      | some rec =>
        if rec ≠ [] ∧ fld rec 0 ≠ id then .err .corruptedIndex
        else .ok (some rec)

/-- Go `csvDB.Iter` (src/pennybase.go:230): the full yielded sequence in
file order — rows with at least two fields whose version field is not `"0"`
and renders the identifier's current version.  (CSV read errors cannot
arise in the row-list model; a consumer stopping early sees a prefix.) -/
def csvIter (st : LogState) : List Record :=
  st.file.filter fun rec =>
    decide (2 ≤ rec.length) && (fld rec 1 != "0")
      && (fld rec 1 == formatInt (st.version (fld rec 0)))

/-- The index-bootstrap scan of `NewCSVDB` (src/pennybase.go:134): one pass
front to back, `pos` counting rows.  Go reads `rec[1]` for every non-empty
row, so a one-field row panics the open: `none`. -/
def scanRows : List Record → Nat → (String → Option Nat) → (String → Int) →
    Option ((String → Option Nat) × (String → Int))
  | [], _, ix, vr => some (ix, vr)
  | [] :: rest, pos, ix, vr => scanRows rest (pos + 1) ix vr
  | [_] :: _, _, _, _ => none
  | (x :: v :: _) :: rest, pos, ix, vr =>
    scanRows rest (pos + 1) (upd ix x (some pos)) (upd vr x (parseIntD v))

/-- Go `NewCSVDB` (src/pennybase.go:134) on an existing file. -/
def newCSVDB (file : List Record) : Option LogState :=
  (scanRows file 0 (fun _ => none) (fun _ => 0)).map (fun p => ⟨file, p.1, p.2⟩)

/-- One row-log call, as issued by a client. -/
inductive Op where
  | create : Record → Op
  | update : Record → Op
  | delete : String → Op

/-- The state after a call; `none` if the call panicked. -/
def outState : DBOut → Option LogState
  | .ok st => some st
  | .err _ st => some st
  | .crash _ => none

/-- Execute one call against the log. -/
def execOp (st : LogState) : Op → Option LogState
  | .create r => outState (csvCreate st r)
  | .update r => outState (csvUpdate st r)
  | .delete id => outState (csvDelete st id)

/-- Run a call sequence from the empty log; rejected calls leave the state
as the code leaves it, a panic aborts the run. -/
def execOps (ops : List Op) : Option LogState :=
  ops.foldlM execOp emptyLog

/-- The indexes are exactly what a bootstrap scan of the file yields. -/
def GoodLog (st : LogState) : Prop :=
  scanRows st.file 0 (fun _ => none) (fun _ => 0) = some (st.index, st.version)

lemma scanRows_append (x v : String) (t : List String) :
    ∀ (file : List Record) (pos : Nat) (ix : String → Option Nat)
      (vr : String → Int),
      scanRows (file ++ [x :: v :: t]) pos ix vr =
        (scanRows file pos ix vr).map
          (fun p => (upd p.1 x (some (pos + file.length)),
                     upd p.2 x (parseIntD v))) := by
  intro file
  induction file with
  | nil =>
    intro pos ix vr
    simp [scanRows]
  | cons a rest ih =>
    intro pos ix vr
    match a with
    | [] =>
      rw [List.cons_append]
      show scanRows (rest ++ [x :: v :: t]) (pos + 1) ix vr = _
      rw [ih]
      show _ = (scanRows rest (pos + 1) ix vr).map _
      rcases scanRows rest (pos + 1) ix vr with - | p
      · rfl
      · simp only [Option.map_some']
        have : pos + 1 + rest.length = pos + ([] :: rest : List Record).length := by
          simp
          omega
        rw [this]
    | [y] => rfl
    | y :: w :: s =>
      rw [List.cons_append]
      show scanRows (rest ++ [x :: v :: t]) (pos + 1) (upd ix y (some pos))
          (upd vr y (parseIntD w)) = _
      rw [ih]
      show _ = (scanRows rest (pos + 1) _ _).map _
      rcases scanRows rest (pos + 1) (upd ix y (some pos))
          (upd vr y (parseIntD w)) with - | p
      · rfl
      · simp only [Option.map_some']
        have : pos + 1 + rest.length
            = pos + ((y :: w :: s) :: rest : List Record).length := by
          simp
          omega
        rw [this]

lemma goodLog_append (st : LogState) (x v : String) (t : List String)
    (hg : GoodLog st) : GoodLog (csvAppend st (x :: v :: t)).1 := by
  rw [GoodLog, csvAppend]
  show scanRows (st.file ++ [x :: v :: t]) 0 _ _ = _
  rw [scanRows_append, hg]
  simp [fld, upd]

lemma outState_appendOut (st : LogState) (r : Record) :
    outState (appendOut st r) = some (csvAppend st r).1 := by
  rw [appendOut]
  rcases csvAppend st r with ⟨st2, o⟩
  rcases o with - | e <;> rfl

lemma goodLog_execOp (st st2 : LogState) (op : Op)
    (h : execOp st op = some st2) (hg : GoodLog st) : GoodLog st2 := by
  match op with
  | .create r =>
    rcases r with - | ⟨x, - | ⟨v, t⟩⟩
    · simp [execOp, csvCreate, outState] at h
    · by_cases hx : x = ""
      · simp only [execOp, csvCreate, if_pos hx, outState, Option.some.injEq] at h
        rw [← h]
        exact hg
      · simp [execOp, csvCreate, if_neg hx, outState] at h
    · by_cases hc : x = "" ∨ v ≠ "1" ∨ st.version x ≠ 0
      · simp only [execOp, csvCreate, if_pos hc, outState, Option.some.injEq] at h
        rw [← h]
        exact hg
      · simp only [execOp, csvCreate, if_neg hc, outState_appendOut,
          Option.some.injEq] at h
        rw [← h]
        exact goodLog_append st x v t hg
  | .update r =>
    rcases r with - | ⟨x, - | ⟨v, t⟩⟩
    · simp only [execOp, csvUpdate, outState, Option.some.injEq] at h
      rw [← h]
      exact hg
    · simp [execOp, csvUpdate, outState] at h
    · by_cases hc : v ≠ formatInt (st.version x + 1)
      · simp only [execOp, csvUpdate, if_pos hc, outState, Option.some.injEq] at h
        rw [← h]
        exact hg
      · simp only [execOp, csvUpdate, if_neg hc, outState_appendOut,
          Option.some.injEq] at h
        rw [← h]
        exact goodLog_append st x v t hg
  | .delete id =>
    by_cases hc : st.version id < 1
    · simp only [execOp, csvDelete, if_pos hc, outState, Option.some.injEq] at h
      rw [← h]
      exact hg
    · simp only [execOp, csvDelete, if_neg hc, outState_appendOut,
        Option.some.injEq] at h
      rw [← h]
      exact goodLog_append st id "0" [] hg

lemma goodLog_execOps :
    ∀ (ops : List Op) (st0 st : LogState), GoodLog st0 →
      ops.foldlM execOp st0 = some st → GoodLog st := by
  intro ops
  induction ops with
  | nil =>
    intro st0 st hg h
    simp only [List.foldlM_nil, Option.pure_def, Option.some.injEq] at h
    rw [← h]
    exact hg
  | cons op rest ih =>
    intro st0 st hg h
    simp only [List.foldlM_cons] at h
    rcases he : execOp st0 op with - | st1
    · rw [he] at h
      simp at h
    · rw [he] at h
      simp only [Option.bind_eq_bind, Option.some_bind] at h
      exact ih st1 st (goodLog_execOp st0 st1 op he hg) h

lemma goodLog_empty : GoodLog emptyLog := rfl

lemma appendOut_ok (st : LogState) (r : Record)
    (hp : (parseInt? (fld r 1)).isSome = true) :
    appendOut st r = DBOut.ok (csvAppend st r).1 := by
  rw [appendOut, csvAppend, if_pos hp]

/-! ## Claim theorems about the Row Log -/

/-- **C1, counterexample.** In the empty log the identifier `"x"` has
current version `0`, yet `Update(["x", "1"])` succeeds and appends the row:
`csvDB.Update` never checks the claim's `current version ≥ 1` requirement,
it only compares field 1 against `FormatInt(current+1)`. -/
theorem c1_counterexample_update_at_version_zero :
    emptyLog.version "x" = 0 ∧
      csvUpdate emptyLog ["x", "1"]
        = DBOut.ok (csvAppend emptyLog ["x", "1"]).1 :=
  ⟨rfl, rfl⟩

/-- **C1 (amended).** `Update(r)` succeeds — appending `r` and updating the
index — iff `r` has at least two fields and field 1 is the decimal rendering
of `current version + 1`, where the current version may be `0`: the code has
no `v ≥ 1` floor.  Any other record not of length 1 fails with
*InvalidVersion* leaving the state unchanged; a record of length exactly 1
makes Go read `r[1]` out of range (panic). -/
theorem c1_update_characterization (st : LogState) (r : Record) :
    ((∃ st2, csvUpdate st r = DBOut.ok st2) ↔
      2 ≤ r.length ∧ fld r 1 = formatInt (st.version (fld r 0) + 1))
    ∧ (csvUpdate st r = DBOut.crash st ↔ r.length = 1)
    ∧ (r.length ≠ 1 →
        ¬(2 ≤ r.length ∧ fld r 1 = formatInt (st.version (fld r 0) + 1)) →
        csvUpdate st r = DBOut.err DBErr.invalidVersion st) := by
  rcases r with - | ⟨x, - | ⟨v, t⟩⟩
  · refine ⟨?_, ?_, fun _ _ => rfl⟩
    · simp [csvUpdate]
    · simp [csvUpdate]
  · refine ⟨?_, ?_, fun h1 _ => absurd rfl h1⟩
    · simp [csvUpdate]
    · simp [csvUpdate]
  · have hf0 : fld (x :: v :: t) 0 = x := rfl
    have hf1 : fld (x :: v :: t) 1 = v := rfl
    have hlen : 2 ≤ (x :: v :: t).length := by
      simp only [List.length_cons]
      omega
    have hlen1 : (x :: v :: t).length ≠ 1 := by
      simp only [List.length_cons]
      omega
    by_cases hc : v = formatInt (st.version x + 1)
    · have hok : csvUpdate st (x :: v :: t)
          = DBOut.ok (csvAppend st (x :: v :: t)).1 := by
        rw [csvUpdate, if_neg (by simp [hc])]
        exact appendOut_ok st (x :: v :: t)
          (by rw [hf1, hc, parseInt_formatInt]; rfl)
      refine ⟨?_, ?_, ?_⟩
      · rw [hok]
        exact ⟨fun _ => ⟨hlen, by rw [hf1, hf0]; exact hc⟩, fun _ => ⟨_, rfl⟩⟩
      · rw [hok]
        exact ⟨fun h => DBOut.noConfusion h, fun h => absurd h hlen1⟩
      · rintro - hcon
        exact absurd ⟨hlen, by rw [hf1, hf0]; exact hc⟩ hcon
    · have herr : csvUpdate st (x :: v :: t)
          = DBOut.err DBErr.invalidVersion st := by
        rw [csvUpdate, if_pos (by simp [hc])]
      refine ⟨?_, ?_, ?_⟩
      · rw [herr]
        constructor
        · rintro ⟨st2, h⟩
          exact DBOut.noConfusion h
        · rintro ⟨-, h2⟩
          rw [hf1, hf0] at h2
          exact absurd h2 hc
      · rw [herr]
        exact ⟨fun h => DBOut.noConfusion h, fun h => absurd h hlen1⟩
      · intro _ _
        exact herr

/-- **C5, counterexample.** `Create(["x"])` — one non-empty field — makes Go
read `r[1]` out of range and panic, rather than fail with *InvalidRecord* as
the claim states for "every other case". -/
theorem c5_counterexample_create_short_record_panics :
    csvCreate emptyLog ["x"] = DBOut.crash emptyLog := rfl

/-- **C5 (amended).** `Create(r)` succeeds iff `r` has ≥ 2 fields, field 0
non-empty, field 1 = `"1"`, and the current version of field 0 is `0`.  It
fails with *InvalidRecord* (state unchanged) in every other case except the
short records Go cannot even inspect: an empty record, or a one-field record
with non-empty field 0, panic with an index out of range. -/
theorem c5_create_characterization (st : LogState) (r : Record) :
    ((∃ st2, csvCreate st r = DBOut.ok st2) ↔
      2 ≤ r.length ∧ fld r 0 ≠ "" ∧ fld r 1 = "1"
        ∧ st.version (fld r 0) = 0)
    ∧ (csvCreate st r = DBOut.crash st ↔
      r = [] ∨ (r.length = 1 ∧ fld r 0 ≠ ""))
    ∧ (¬(r = [] ∨ (r.length = 1 ∧ fld r 0 ≠ "")) →
        ¬(2 ≤ r.length ∧ fld r 0 ≠ "" ∧ fld r 1 = "1"
            ∧ st.version (fld r 0) = 0) →
        csvCreate st r = DBOut.err DBErr.invalidRecord st) := by
  rcases r with - | ⟨x, - | ⟨v, t⟩⟩
  · exact ⟨by simp [csvCreate], by simp [csvCreate],
      fun h1 _ => absurd (Or.inl rfl) h1⟩
  · have hf0 : fld [x] 0 = x := rfl
    by_cases hx : x = ""
    · refine ⟨?_, ?_, fun _ _ => by rw [csvCreate, if_pos hx]⟩
      · rw [csvCreate, if_pos hx]
        constructor
        · rintro ⟨st2, h⟩
          exact DBOut.noConfusion h
        · rintro ⟨-, h2, -⟩
          rw [hf0] at h2
          exact absurd hx h2
      · rw [csvCreate, if_pos hx]
        constructor
        · intro h
          exact DBOut.noConfusion h
        · rintro (h | ⟨-, h2⟩)
          · exact List.noConfusion h
          · rw [hf0] at h2
            exact absurd hx h2
    · refine ⟨?_, ?_, ?_⟩
      · rw [csvCreate, if_neg hx]
        constructor
        · rintro ⟨st2, h⟩
          exact DBOut.noConfusion h
        · rintro ⟨h1, -⟩
          simp at h1
      · rw [csvCreate, if_neg hx]
        exact ⟨fun _ => Or.inr ⟨rfl, by rw [hf0]; exact hx⟩, fun _ => rfl⟩
      · intro h1 _
        exact absurd (Or.inr ⟨rfl, by rw [hf0]; exact hx⟩) h1
  · have hf0 : fld (x :: v :: t) 0 = x := rfl
    have hf1 : fld (x :: v :: t) 1 = v := rfl
    have hlen : 2 ≤ (x :: v :: t).length := by
      simp only [List.length_cons]
      omega
    have hlen1 : (x :: v :: t).length ≠ 1 := by
      simp only [List.length_cons]
      omega
    by_cases hc : x = "" ∨ v ≠ "1" ∨ st.version x ≠ 0
    · have herr : csvCreate st (x :: v :: t)
          = DBOut.err DBErr.invalidRecord st := by
        rw [csvCreate, if_pos hc]
      refine ⟨?_, ?_, fun _ _ => herr⟩
      · rw [herr]
        constructor
        · rintro ⟨st2, h⟩
          exact DBOut.noConfusion h
        · rintro ⟨-, h2, h3, h4⟩
          rw [hf0] at h2 h4
          rw [hf1] at h3
          rcases hc with hc | hc | hc
          · exact absurd hc h2
          · exact absurd h3 hc
          · exact absurd h4 hc
      · rw [herr]
        constructor
        · intro h
          exact DBOut.noConfusion h
        · rintro (h | ⟨h2, -⟩)
          · exact List.noConfusion h
          · exact absurd h2 hlen1
    · push_neg at hc
      obtain ⟨hx, hv1, hv0⟩ := hc
      have hok : csvCreate st (x :: v :: t)
          = DBOut.ok (csvAppend st (x :: v :: t)).1 := by
        rw [csvCreate, if_neg (by simp [hx, hv1, hv0])]
        exact appendOut_ok st (x :: v :: t) (by rw [hf1, hv1]; decide)
      refine ⟨?_, ?_, ?_⟩
      · rw [hok]
        refine ⟨fun _ => ⟨hlen, ?_, ?_, ?_⟩, fun _ => ⟨_, rfl⟩⟩
        · rw [hf0]
          exact hx
        · rw [hf1]
          exact hv1
        · rw [hf0]
          exact hv0
      · rw [hok]
        constructor
        · intro h
          exact DBOut.noConfusion h
        · rintro (h | ⟨h2, -⟩)
          · exact List.noConfusion h
          · exact absurd h2 hlen1
      · rintro - hcon
        refine absurd ⟨hlen, ?_, ?_, ?_⟩ hcon
        · rw [hf0]
          exact hx
        · rw [hf1]
          exact hv1
        · rw [hf0]
          exact hv0

lemma get?_append_singleton {α : Type} (l : List α) (a : α) :
    (l ++ [a]).get? l.length = some a := by
  induction l with
  | nil => rfl
  | cons x xs ih => exact ih

/-- **C6.**  For every identifier `x` — identifiers are non-empty text
(spec §3) — whose current version is at least 1: `Delete(x)` succeeds; then
`Get(x)` fails with *NotFound* and `Iter` yields no row with identifier `x`;
a subsequent `Create` of `x` with version field `"1"` succeeds, after which
`Get(x)` returns the new row and `Iter` yields it. -/
theorem c6_delete_then_recreate (st : LogState) (x : String)
    (rest : List String) (hx : x ≠ "") (hv : 1 ≤ st.version x) :
    ∃ st2, csvDelete st x = DBOut.ok st2 ∧
      csvGet st2 x = GetOut.err DBErr.notFound ∧
      (∀ rec ∈ csvIter st2, fld rec 0 ≠ x) ∧
      ∃ st3, csvCreate st2 (x :: "1" :: rest) = DBOut.ok st3 ∧
        csvGet st3 x = GetOut.ok (some (x :: "1" :: rest)) ∧
        (x :: "1" :: rest) ∈ csvIter st3 := by
  have hp0 : parseIntD "0" = 0 := by decide
  have hp1 : parseIntD "1" = 1 := by decide
  have hfmt0 : formatInt 0 = "0" := by decide
  have hfmt1 : formatInt 1 = "1" := by decide
  refine ⟨(csvAppend st [x, "0"]).1, ?_, ?_, ?_, ?_⟩
  · rw [csvDelete, if_neg (by omega)]
    exact appendOut_ok st [x, "0"]
      (by show (parseInt? "0").isSome = true; decide)
  · have hver : (csvAppend st [x, "0"]).1.version x = 0 := by
      show upd st.version (fld [x, "0"] 0) (parseIntD (fld [x, "0"] 1)) x = 0
      show (if x = x then parseIntD "0" else st.version x) = 0
      rw [if_pos rfl, hp0]
    rw [csvGet, if_pos (by omega)]
  · intro rec hrec heq
    rw [csvIter, List.mem_filter] at hrec
    obtain ⟨-, hpred⟩ := hrec
    simp only [Bool.and_eq_true, decide_eq_true_eq, bne_iff_ne,
      beq_iff_eq] at hpred
    obtain ⟨⟨-, hne0⟩, hcur⟩ := hpred
    rw [heq] at hcur
    have hver : (csvAppend st [x, "0"]).1.version x = 0 := by
      show (if x = x then parseIntD "0" else st.version x) = 0
      rw [if_pos rfl, hp0]
    rw [hver, hfmt0] at hcur
    exact hne0 hcur
  · have hver : (csvAppend st [x, "0"]).1.version x = 0 := by
      show (if x = x then parseIntD "0" else st.version x) = 0
      rw [if_pos rfl, hp0]
    refine ⟨(csvAppend (csvAppend st [x, "0"]).1 (x :: "1" :: rest)).1,
      ?_, ?_, ?_⟩
    · rw [csvCreate, if_neg (by simp [hx, hver])]
      exact appendOut_ok _ (x :: "1" :: rest)
        (by show (parseInt? "1").isSome = true; decide)
    · set st2 := (csvAppend st [x, "0"]).1 with hst2
      have hver3 :
          (csvAppend st2 (x :: "1" :: rest)).1.version x = 1 := by
        show (if x = x then parseIntD "1" else st2.version x) = 1
        rw [if_pos rfl, hp1]
      have hix3 : (csvAppend st2 (x :: "1" :: rest)).1.index x
          = some st2.file.length := by
        show (if x = x then some st2.file.length else st2.index x)
          = some st2.file.length
        rw [if_pos rfl]
      have hfile : (csvAppend st2 (x :: "1" :: rest)).1.file.get?
          st2.file.length = some (x :: "1" :: rest) :=
        get?_append_singleton st2.file (x :: "1" :: rest)
      rw [csvGet, if_neg (by omega)]
      simp only [hix3, hfile]
      rw [if_neg (by simp [fld])]
    · set st2 := (csvAppend st [x, "0"]).1 with hst2
      have hver3 :
          (csvAppend st2 (x :: "1" :: rest)).1.version x = 1 := by
        show (if x = x then parseIntD "1" else st2.version x) = 1
        rw [if_pos rfl, hp1]
      rw [csvIter, List.mem_filter]
      constructor
      · show x :: "1" :: rest ∈ st2.file ++ [x :: "1" :: rest]
        simp
      · simp only [Bool.and_eq_true, decide_eq_true_eq, bne_iff_ne,
          beq_iff_eq]
        refine ⟨⟨?_, ?_⟩, ?_⟩
        · show 2 ≤ rest.length + 2
          omega
        · show "1" ≠ "0"
          decide
        · show "1" = formatInt ((csvAppend st2 (x :: "1" :: rest)).1.version x)
          rw [hver3, hfmt1]

/-- A one-row log holding `["a", "1"]`, used by witnesses. -/
def logW : LogState := (csvAppend emptyLog ["a", "1"]).1

theorem c6_witness :
    ∃ st2, csvDelete logW "a" = DBOut.ok st2 ∧
      csvGet st2 "a" = GetOut.err DBErr.notFound ∧
      (∀ rec ∈ csvIter st2, fld rec 0 ≠ "a") ∧
      ∃ st3, csvCreate st2 ("a" :: "1" :: ["d"]) = DBOut.ok st3 ∧
        csvGet st3 "a" = GetOut.ok (some ("a" :: "1" :: ["d"])) ∧
        ("a" :: "1" :: ["d"]) ∈ csvIter st3 :=
  c6_delete_then_recreate logW "a" ["d"] (by decide) (by decide)

/-- **C10.**  Every record yielded by `Iter` has at least two fields, a
version field different from `"0"`, and a version field equal to the decimal
rendering of the index's current version for its identifier; rows with fewer
than two fields are silently skipped (they never appear in the output, which
contains no error entries). -/
theorem c10_iter_invariant (st : LogState) (rec : Record)
    (h : rec ∈ csvIter st) :
    2 ≤ rec.length ∧ fld rec 1 ≠ "0" ∧
      fld rec 1 = formatInt (st.version (fld rec 0)) := by
  rw [csvIter, List.mem_filter] at h
  obtain ⟨-, hp⟩ := h
  simp only [Bool.and_eq_true, decide_eq_true_eq, bne_iff_ne,
    beq_iff_eq] at hp
  exact ⟨hp.1.1, hp.1.2, hp.2⟩

theorem c10_witness :
    2 ≤ (["a", "1"] : Record).length ∧ fld ["a", "1"] 1 ≠ "0" ∧
      fld ["a", "1"] 1 = formatInt (logW.version (fld ["a", "1"] 0)) :=
  c10_iter_invariant logW ["a", "1"] (by decide)

/-- **C4.**  For every call sequence executed against the row log from the
empty log (any panic-free sequence, which includes every sequence the
contract accepts — rejected calls leave the state unchanged), re-opening the
log from its file rebuilds the very same state, so every `Get` result and
the `Iter` sequence are unchanged. -/
theorem c4_reopen_preserves_get_iter (ops : List Op) (st : LogState)
    (h : execOps ops = some st) :
    ∃ st2, newCSVDB st.file = some st2 ∧
      (∀ id, csvGet st2 id = csvGet st id) ∧ csvIter st2 = csvIter st := by
  have hg : GoodLog st := goodLog_execOps ops emptyLog st goodLog_empty h
  refine ⟨st, ?_, fun _ => rfl, rfl⟩
  rw [newCSVDB, hg, Option.map_some']

/-- A call sequence exercising create, update, delete and re-create. -/
def opsW : List Op :=
  [Op.create ["a", "1", "x"], Op.update ["a", "2", "y"], Op.delete "a",
   Op.create ["a", "1", "z"]]

/-- The log state `opsW` produces. -/
def stW : LogState := (execOps opsW).getD emptyLog

theorem c4_witness :
    ∃ st2, newCSVDB stW.file = some st2 ∧
      (∀ id, csvGet st2 id = csvGet stW id) ∧ csvIter st2 = csvIter stW :=
  c4_reopen_preserves_get_iter opsW stW rfl

/-! ## Schema: Go `FieldSchema.Validate`, `Schema.Record`, `Schema.Resource`
(src/pennybase.go:30-124)

Go's `float64` is the type parameter `N`; `fmt.Sprintf("%g", ·)` and
`strconv.ParseFloat` are the parameters `fmtN` / `parseN`, with their
round-trip identity a hypothesis where needed;
`regexp.MustCompile(re).MatchString(s)` is the parameter `rmatch re s`. -/

/-- Go `FieldType` is a string; `"number"`, `"text"`, `"list"` are the
known values, anything else is an unknown type. -/
abbrev FieldType := String

/-- Go `FieldSchema`, with the `float64` bounds abstracted to `N`. -/
structure FieldSchema (N : Type) where
  resource : String
  field : String
  type : FieldType
  min : N
  max : N
  regex : String

/-- A typed resource value: Go `any` restricted to the three shapes the
schema layer produces and accepts (`float64`, `string`, `[]string`). -/
inductive Value (N : Type) where
  | num : N → Value N
  | str : String → Value N
  | list : List String → Value N
deriving DecidableEq

/-- Go `Resource`: a map from field name to value.  `none` stands for an
absent key or a `nil` value — a Go map read cannot tell them apart. -/
abbrev Resource (N : Type) := String → Option (Value N)

/-- The resource with no fields, Go `Resource{}`. -/
def emptyRes (N : Type) : Resource N := fun _ => none

/-- Update a resource map at one key (Go `res[k] = w`). -/
def updRes {N : Type} (m : Resource N) (k : String) (w : Value N) :
    Resource N :=
  fun x => if x = k then some w else m x

/-- Go `FieldSchema.Validate` (src/pennybase.go:58): `nil` is invalid; a
number must satisfy the range rule, text must match a non-empty regex, a
list is always valid; a value of the wrong shape or an unknown field type
is invalid. -/
def validate {N : Type} [LinearOrder N] [Zero N]
    (rmatch : String → String → Bool) (f : FieldSchema N)
    (v : Option (Value N)) : Bool :=
  match v with
  | none => false
  | some w =>
    if f.type = "number" then
      match w with
      | .num n =>
        (decide (f.min = 0) && decide (f.max = 0))
          || (decide (f.min ≤ n)
              && (decide (f.max < f.min) || decide (n ≤ f.max)))
      | _ => false
    else if f.type = "text" then
      match w with
      | .str s => (f.regex == "") || rmatch f.regex s
      | _ => false
    else if f.type = "list" then
      match w with
      | .list _ => true
      | _ => false
    else false

/-- The zero value substituted for an absent field in `Schema.Record`
(src/pennybase.go:81); Go's map literal lookup yields `nil` (here `none`)
for an unknown field type. -/
def zeroValue (N : Type) [Zero N] (t : FieldType) : Option (Value N) :=
  if t = "number" then some (.num 0)
  else if t = "text" then some (.str "")
  else if t = "list" then some (.list [])
  else none

/-- Serialization of one validated value in `Schema.Record`
(src/pennybase.go:86-93).  Go switches on the field type and type-asserts;
validation, checked just before, forces the value's shape to match the
type, so matching on the shape is the same switch.  Lists are joined with
`","`, unescaped. -/
def cellOf {N : Type} (fmtN : N → String) : Value N → String
  | .num n => fmtN n
  | .str s => s
  | .list l => goJoin ',' l

/-- The schema layer's error values. -/
inductive SchemaErr where
  | invalidField : String → SchemaErr
  | shortRecord
  | invalidNumber
  | unknownType
deriving DecidableEq, Repr

/-- Go `Schema.Record` (src/pennybase.go:76): for each field in declaration
order, substitute the zero value when the resource lacks the field,
validate — failing with *InvalidField(name)* at the first invalid field —
and serialize.  (The inner `none` branch is unreachable: `validate` rejects
`none`.) -/
def schemaRecord {N : Type} [LinearOrder N] [Zero N]
    (rmatch : String → String → Bool) (fmtN : N → String) :
    List (FieldSchema N) → Resource N → Except SchemaErr (List String)
  | [], _ => .ok []
  | f :: rest, res =>
    let v : Option (Value N) := match res f.field with
      | some w => some w
      | none => zeroValue N f.type
    if validate rmatch f v then
      match v with
      | some w => (schemaRecord rmatch fmtN rest res).map
          (fun cells => cellOf fmtN w :: cells)
      | none => .error (.invalidField f.field)
    else .error (.invalidField f.field)

/-- Go `Schema.Resource` (src/pennybase.go:98): pair schema fields with
record cells in declaration order — a record shorter than the schema is
*ShortRecord*, extra cells are ignored; numbers parse with `parseN`
(*InvalidNumber* on failure), text is taken verbatim, a list cell splits on
`","` with the empty cell giving the empty list; an unknown field type is
an error. -/
def schemaResource {N : Type} (parseN : String → Option N) :
    List (FieldSchema N) → List String → Resource N →
      Except SchemaErr (Resource N)
  | [], _, acc => .ok acc
  | _ :: _, [], _ => .error .shortRecord
  | f :: rest, c :: cells, acc =>
    if f.type = "number" then
      match parseN c with
      | none => .error .invalidNumber
      | some n =>
        schemaResource parseN rest cells (updRes acc f.field (.num n))
    else if f.type = "text" then
      schemaResource parseN rest cells (updRes acc f.field (.str c))
    else if f.type = "list" then
      schemaResource parseN rest cells
        (updRes acc f.field (.list (if c = "" then [] else goSplit ',' c)))
    else .error .unknownType

/-- **C9.**  For a `Number` field the range rule is: if `Min == 0` and
`Max == 0`, any value is accepted; otherwise if `Max < Min`, exactly the
values `≥ Min`; otherwise exactly the values with `Min ≤ v ≤ Max`.  Doubles
are modelled by `ℚ` — the comparisons involve no rounding; `NaN`, which
fails every comparison, is outside the model (the claim speaks of finite
doubles). -/
theorem c9_number_range (rmatch : String → String → Bool)
    (f : FieldSchema ℚ) (v : ℚ) (ht : f.type = "number") :
    (validate rmatch f (some (Value.num v)) = true ↔
      (if f.min = 0 ∧ f.max = 0 then True
       else if f.max < f.min then f.min ≤ v
       else f.min ≤ v ∧ v ≤ f.max)) := by
  have hv : validate rmatch f (some (Value.num v))
      = ((decide (f.min = 0) && decide (f.max = 0))
          || (decide (f.min ≤ v)
              && (decide (f.max < f.min) || decide (v ≤ f.max)))) := by
    rw [validate, if_pos ht]
  rw [hv]
  simp only [Bool.or_eq_true, Bool.and_eq_true, decide_eq_true_eq]
  by_cases h1 : f.min = 0 ∧ f.max = 0
  · rw [if_pos h1]
    simp [h1.1, h1.2]
  · rw [if_neg h1]
    by_cases h2 : f.max < f.min
    · rw [if_pos h2]
      constructor
      · rintro (h | ⟨h3, -⟩)
        · exact absurd h h1
        · exact h3
      · intro h3
        exact Or.inr ⟨h3, Or.inl h2⟩
    · rw [if_neg h2]
      constructor
      · rintro (h | ⟨h3, h4 | h4⟩)
        · exact absurd h h1
        · exact absurd h4 h2
        · exact ⟨h3, h4⟩
      · rintro ⟨h3, h4⟩
        exact Or.inr ⟨h3, Or.inr h4⟩

theorem c9_witness :
    (validate (fun _ _ => false)
        (⟨"books", "rating", "number", (1 : ℚ), 0, ""⟩ : FieldSchema ℚ)
        (some (Value.num 5)) = true ↔
      (if (1 : ℚ) = 0 ∧ (0 : ℚ) = 0 then True
       else if (0 : ℚ) < 1 then (1 : ℚ) ≤ 5
       else (1 : ℚ) ≤ 5 ∧ (5 : ℚ) ≤ 0)) :=
  c9_number_range (fun _ _ => false)
    ⟨"books", "rating", "number", 1, 0, ""⟩ 5 rfl

/-! ### The C3 round trip -/

lemma validate_shape {N : Type} [LinearOrder N] [Zero N]
    (rmatch : String → String → Bool) (f : FieldSchema N) (w : Value N)
    (h : validate rmatch f (some w) = true) :
    (∃ n, w = .num n ∧ f.type = "number")
    ∨ (∃ s, w = .str s ∧ f.type = "text")
    ∨ (∃ l, w = .list l ∧ f.type = "list") := by
  by_cases h1 : f.type = "number"
  · cases w with
    | num n => exact Or.inl ⟨n, rfl, h1⟩
    | str s =>
      simp only [validate, if_pos h1] at h
      exact Bool.noConfusion h
    | list l =>
      simp only [validate, if_pos h1] at h
      exact Bool.noConfusion h
  · by_cases h2 : f.type = "text"
    · cases w with
      | num n =>
        simp only [validate, if_neg h1, if_pos h2] at h
        exact Bool.noConfusion h
      | str s => exact Or.inr (Or.inl ⟨s, rfl, h2⟩)
      | list l =>
        simp only [validate, if_neg h1, if_pos h2] at h
        exact Bool.noConfusion h
    · by_cases h3 : f.type = "list"
      · cases w with
        | num n =>
          simp only [validate, if_neg h1, if_neg h2, if_pos h3] at h
          exact Bool.noConfusion h
        | str s =>
          simp only [validate, if_neg h1, if_neg h2, if_pos h3] at h
          exact Bool.noConfusion h
        | list l => exact Or.inr (Or.inr ⟨l, rfl, h3⟩)
      · simp only [validate, if_neg h1, if_neg h2, if_neg h3] at h
        exact Bool.noConfusion h

lemma updRes_char {N : Type} (res acc out : Resource N) (f : FieldSchema N)
    (rest : List (FieldSchema N)) (w : Value N)
    (hres : res f.field = some w)
    (hchar : ∀ k, out k = if k ∈ rest.map (fun g => g.field) then res k
      else updRes acc f.field w k) :
    ∀ k, out k = if k ∈ (f :: rest).map (fun g => g.field) then res k
      else acc k := by
  intro k
  rw [hchar k]
  by_cases hk : k ∈ rest.map (fun g => g.field)
  · rw [if_pos hk,
      if_pos (by simp only [List.map_cons, List.mem_cons]; exact Or.inr hk)]
  · rw [if_neg hk]
    have hupd : updRes acc f.field w k
        = if k = f.field then some w else acc k := rfl
    rw [hupd]
    by_cases hkf : k = f.field
    · rw [if_pos hkf,
        if_pos (by simp only [List.map_cons, List.mem_cons]; exact Or.inl hkf),
        hkf, hres]
    · rw [if_neg hkf,
        if_neg (by
          simp only [List.map_cons, List.mem_cons]
          push_neg
          exact ⟨hkf, hk⟩)]

lemma goJoin_nil : goJoin ',' [] = "" := rfl

lemma schemaResource_of_schemaRecord {N : Type} [LinearOrder N] [Zero N]
    (rmatch : String → String → Bool) (fmtN : N → String)
    (parseN : String → Option N)
    (hnum : ∀ n, parseN (fmtN n) = some n) :
    ∀ (s : List (FieldSchema N)) (res : Resource N) (cells : List String)
      (acc : Resource N),
      schemaRecord rmatch fmtN s res = .ok cells →
      (∀ f ∈ s, res f.field ≠ none) →
      (∀ k l, res k = some (.list l) →
        (∀ x ∈ l, ',' ∉ x.data) ∧ l ≠ [""]) →
      ∃ out, schemaResource parseN s cells acc = .ok out ∧
        ∀ k, out k = if k ∈ s.map (fun f => f.field) then res k else acc k := by
  intro s
  induction s with
  | nil =>
    intro res cells acc hrec hdom hlist
    rw [schemaRecord] at hrec
    cases hrec
    exact ⟨acc, rfl, fun k => by simp⟩
  | cons f rest ih =>
    intro res cells acc hrec hdom hlist
    obtain ⟨w, hres⟩ : ∃ w, res f.field = some w := by
      have := hdom f (by simp)
      cases hw : res f.field with
      | none => exact absurd hw this
      | some w => exact ⟨w, rfl⟩
    rw [schemaRecord] at hrec
    simp only [hres] at hrec
    by_cases hval : validate rmatch f (some w) = true
    · rw [if_pos hval] at hrec
      rcases hrest : schemaRecord rmatch fmtN rest res with e | cells2
      · rw [hrest] at hrec
        exact Except.noConfusion hrec
      · rw [hrest] at hrec
        simp only [Except.map] at hrec
        have hcells : cells = cellOf fmtN w :: cells2 :=
          (Except.ok.injEq _ _ ▸ hrec).symm
        have hdom2 : ∀ g ∈ rest, res g.field ≠ none :=
          fun g hg => hdom g (by simp [hg])
        rcases validate_shape rmatch f w hval with
          ⟨n, rfl, hty⟩ | ⟨s0, rfl, hty⟩ | ⟨l, rfl, hty⟩
        · obtain ⟨out, hout, hchar⟩ :=
            ih res cells2 (updRes acc f.field (.num n)) hrest hdom2 hlist
          refine ⟨out, ?_, ?_⟩
          · rw [hcells, schemaResource, if_pos hty]
            have : cellOf fmtN (Value.num n) = fmtN n := rfl
            rw [this, hnum n]
            exact hout
          · exact updRes_char res acc out f rest _ hres hchar
        · obtain ⟨out, hout, hchar⟩ :=
            ih res cells2 (updRes acc f.field (.str s0)) hrest hdom2 hlist
          refine ⟨out, ?_, ?_⟩
          · rw [hcells, schemaResource, if_neg (by rw [hty]; decide),
              if_pos hty]
            exact hout
          · exact updRes_char res acc out f rest _ hres hchar
        · have hcell : (if cellOf fmtN (Value.list l) = "" then []
              else goSplit ',' (cellOf fmtN (Value.list l))) = l := by
            rcases Decidable.em (l = []) with rfl | hl
            · rw [if_pos (show cellOf fmtN (Value.list ([] : List String))
                = "" from rfl)]
            · obtain ⟨hfree, hne1⟩ := hlist f.field l hres
              have hne : goJoin ',' l ≠ "" := goJoin_ne_empty ',' l hl hne1
              have : cellOf fmtN (Value.list l) = goJoin ',' l := rfl
              rw [this, if_neg hne]
              exact goSplit_goJoin ',' l hl hfree
          obtain ⟨out, hout, hchar⟩ :=
            ih res cells2 (updRes acc f.field (.list l)) hrest hdom2 hlist
          refine ⟨out, ?_, ?_⟩
          · rw [hcells, schemaResource, if_neg (by rw [hty]; decide),
              if_neg (by rw [hty]; decide), if_pos hty, hcell]
            exact hout
          · exact updRes_char res acc out f rest _ hres hchar
    · rw [if_neg hval] at hrec
      exact Except.noConfusion hrec

/-- **C3 (amended).**  For every schema and every resource `r` that
`Schema.Record` accepts, `Schema.Resource(Schema.Record(r))` returns a
resource equal to `r` — numbers via the `fmtN`/`parseN` round trip (Go's
`%g`/`ParseFloat` identity), lists elementwise — provided the keys of `r`
are exactly the schema's field names (an absent field comes back as its
zero value, an extra key does not come back at all), no list item contains
a comma (`,` is joined unescaped) and no list value is exactly `[""]` (its
cell, the empty string, parses as the empty list). -/
theorem c3_record_resource_roundtrip {N : Type} [LinearOrder N] [Zero N]
    (rmatch : String → String → Bool) (fmtN : N → String)
    (parseN : String → Option N) (s : List (FieldSchema N))
    (res : Resource N) (cells : List String)
    (hnum : ∀ n, parseN (fmtN n) = some n)
    (hrec : schemaRecord rmatch fmtN s res = .ok cells)
    (hdom : ∀ k, res k ≠ none ↔ k ∈ s.map (fun f => f.field))
    (hlist : ∀ k l, res k = some (.list l) →
      (∀ x ∈ l, ',' ∉ x.data) ∧ l ≠ [""]) :
    schemaResource parseN s cells (emptyRes N) = .ok res := by
  obtain ⟨out, hout, hchar⟩ :=
    schemaResource_of_schemaRecord rmatch fmtN parseN hnum s res cells
      (emptyRes N) hrec (fun f hf => (hdom f.field).mpr (by simp; exact ⟨f, hf, rfl⟩))
      hlist
  rw [hout]
  refine congrArg Except.ok (funext fun k => ?_)
  rw [hchar k]
  by_cases hk : k ∈ s.map (fun f => f.field)
  · rw [if_pos hk]
  · rw [if_neg hk, emptyRes]
    rcases hv : res k with - | w
    · rfl
    · exact absurd ((hdom k).mp (by rw [hv]; exact fun h => Option.noConfusion h)) hk

/-- The one-field list schema of the C3 counterexample. -/
def listSchemaX : List (FieldSchema Int) := [⟨"c", "xs", "list", 0, 0, ""⟩]

/-- The resource `{xs: ["a,b"]}` — one list item containing a comma. -/
def resX : Resource Int :=
  fun k => if k = "xs" then some (Value.list ["a,b"]) else none

/-- **C3, counterexample.**  The resource `{xs: ["a,b"]}` is accepted by
`Schema.Record` (list validation puts no constraint on items), producing the
cell `"a,b"`; parsing that record back yields `{xs: ["a","b"]}`, which
differs from the original at `xs`: comma-joined list cells are not escaped,
so the round trip of the claim fails. -/
theorem c3_counterexample_comma_item :
    schemaRecord (fun _ _ => true) formatInt listSchemaX resX
      = Except.ok ["a,b"]
    ∧ ∀ out, schemaResource parseInt? listSchemaX ["a,b"] (emptyRes Int)
        = Except.ok out → out "xs" ≠ resX "xs" := by
  refine ⟨rfl, ?_⟩
  intro out h
  have h1 : Except.ok (updRes (emptyRes Int) "xs"
      (Value.list ["a", "b"])) = Except.ok out := h
  injection h1 with h2
  rw [← h2]
  decide

/-- A three-field schema (text, number, list) used by the C3 witness, with
cells over `Int` and the `FormatInt`/`ParseInt` round trip as the number
codec. -/
def schemaW : List (FieldSchema Int) :=
  [⟨"books", "_id", "text", 0, 0, ""⟩,
   ⟨"books", "_v", "number", 1, 0, ""⟩,
   ⟨"books", "tags", "list", 0, 0, ""⟩]

/-- The witness resource `{_id: "b1", _v: 2, tags: ["x","y"]}`. -/
def resW : Resource Int :=
  fun k =>
    if k = "_id" then some (Value.str "b1")
    else if k = "_v" then some (Value.num 2)
    else if k = "tags" then some (Value.list ["x", "y"])
    else none

theorem c3_witness :
    schemaResource parseInt? schemaW ["b1", "2", "x,y"] (emptyRes Int)
      = Except.ok resW := by
  have hm : schemaW.map (fun f => f.field) = ["_id", "_v", "tags"] := rfl
  refine c3_record_resource_roundtrip (fun _ _ => true) formatInt parseInt?
    schemaW resW ["b1", "2", "x,y"] parseInt_formatInt rfl ?_ ?_
  · intro k
    rw [hm]
    constructor
    · intro hne
      by_cases h1 : k = "_id"
      · simp [h1]
      · by_cases h2 : k = "_v"
        · simp [h2]
        · by_cases h3 : k = "tags"
          · simp [h3]
          · exfalso
            apply hne
            show (if k = "_id" then some (Value.str "b1")
              else if k = "_v" then some (Value.num 2)
              else if k = "tags" then some (Value.list ["x", "y"])
              else none) = none
            rw [if_neg h1, if_neg h2, if_neg h3]
    · intro hk
      simp only [List.mem_cons, List.not_mem_nil, or_false] at hk
      rcases hk with rfl | rfl | rfl <;> decide
  · intro k l hl
    by_cases h3 : k = "tags"
    · subst h3
      have he : resW "tags" = some (Value.list ["x", "y"]) := rfl
      rw [he] at hl
      injection hl with h4
      injection h4 with h5
      rw [← h5]
      exact ⟨by decide, by decide⟩
    · by_cases h1 : k = "_id"
      · subst h1
        have he : resW "_id" = some (Value.str "b1") := rfl
        rw [he] at hl
        injection hl with h4
        exact Value.noConfusion h4
      · by_cases h2 : k = "_v"
        · subst h2
          have he : resW "_v" = some (Value.num 2) := rfl
          rw [he] at hl
          injection hl with h4
          exact Value.noConfusion h4
        · have he : resW k = none := by
            show (if k = "_id" then some (Value.str "b1")
              else if k = "_v" then some (Value.num 2)
              else if k = "tags" then some (Value.list ["x", "y"])
              else none) = none
            rw [if_neg h1, if_neg h2, if_neg h3]
          rw [he] at hl
          exact Option.noConfusion hl

/-! ## The Collection Store's read and update paths
(src/pennybase.go:317-360, src/unnamed/part_004:356-399) -/

/-- Store-level error values; the two `…Panic` constructors stand for Go
run-time panics (failed type assertions), kept apart from returned
errors. -/
inductive StoreErr where
  | unknownCollection
  | dbErr : DBErr → StoreErr
  | schemaErr : SchemaErr → StoreErr
  | recordNotFound
  | typeAssertPanic
deriving DecidableEq, Repr

/-- Go `Store` restricted to what these paths touch: parsed schemas and one
row log per collection.  A `Schemas` read of an absent key yields Go's nil
slice (the empty schema); `Resources` presence is checked (`ok`). -/
structure StoreState (N : Type) where
  schemas : String → List (FieldSchema N)
  resources : String → Option LogState

/-- Go `Store.Get` (part_004:386): the row from the log parsed through the
schema; a row shorter than two fields — including the `nil` row `Get`
returns when the index lacks the id — is an empty result, not an error. -/
def storeGet {N : Type} (parseN : String → Option N) (st : StoreState N)
    (resource id : String) : Except StoreErr (Option (Resource N)) :=
  match st.resources resource with
  | none => .error .unknownCollection
  | some db =>
    match csvGet db id with
    | .err e => .error (.dbErr e)
    | .ok none => .ok none
    | .ok (some rec) =>
      if rec.length < 2 then .ok none
      else
        match schemaResource parseN (st.schemas resource) rec (emptyRes N) with
        | .error e => .error (.schemaErr e)
        | .ok r => .ok (some r)

/-- Update a resource at one key with an optional value (Go `m[k] = v`
where `v` may be `nil`; the model identifies a `nil`-valued key with an
absent one, as a Go map read does). -/
def updO {N : Type} (m : Resource N) (k : String) (v : Option (Value N)) :
    Resource N :=
  fun x => if x = k then v else m x

/-- The partial-update loop of `Store.Update` (part_004:365-369): for each
schema field, if its key is absent from the evolving `r`, copy the
original's value. -/
def fillMissing {N : Type} (fields : List (FieldSchema N))
    (r orig : Resource N) : Resource N :=
  fields.foldl (fun m f =>
    match m f.field with
    | some _ => m
    | none => updO m f.field (orig f.field)) r

/-- Go `Store.Update` (part_004:356) up to the record it hands to
`db.Update`: look up the collection; read the original resource by
`r["_id"]` (a non-string `_id` is a type-assertion panic; an error from
`Get` is wrapped as "record not found"; an empty `Get` result leaves `orig`
nil, so `orig["_v"].(float64)` panics, as it does for a non-number `_v`);
copy every schema field absent from `r` from the original; set `_v` to the
original's `_v` plus one; project through the schema. -/
def storeUpdateRecord {N : Type} [LinearOrder N] [Zero N] [One N] [Add N]
    (rmatch : String → String → Bool) (fmtN : N → String)
    (parseN : String → Option N) (st : StoreState N)
    (resource : String) (r : Resource N) :
    Except StoreErr (List String) :=
  match st.resources resource with
  | none => .error .unknownCollection
  | some _ =>
    match r "_id" with
    | some (.str id) =>
      match storeGet parseN st resource id with
      | .error _ => .error .recordNotFound
      | .ok none => .error .typeAssertPanic
      | .ok (some orig) =>
        match orig "_v" with
        | some (.num v0) =>
          let merged := updO (fillMissing (st.schemas resource) r orig)
            "_v" (some (.num (v0 + 1)))
          match schemaRecord rmatch fmtN (st.schemas resource) merged with
          | .error e => .error (.schemaErr e)
          | .ok rec => .ok rec
        | _ => .error .typeAssertPanic
    | _ => .error .typeAssertPanic

lemma fillMissing_char {N : Type} :
    ∀ (fields : List (FieldSchema N)) (r orig : Resource N) (k : String),
      fillMissing fields r orig k =
        if (r k).isSome = true then r k
        else if k ∈ fields.map (fun f => f.field) then orig k else r k := by
  intro fields
  induction fields with
  | nil =>
    intro r orig k
    by_cases hs : (r k).isSome = true
    · rw [if_pos hs]
      rfl
    · rw [if_neg hs]
      have : (k ∈ ([] : List (FieldSchema N)).map (fun f => f.field)) = False := by
        simp
      rw [if_neg (by simp)]
      rfl
  | cons f fs ih =>
    intro r orig k
    have hmem : (k ∈ (f :: fs).map (fun g => g.field))
        ↔ (k = f.field ∨ k ∈ fs.map (fun g => g.field)) := by
      simp only [List.map_cons, List.mem_cons]
    rcases hrf : r f.field with - | w
    · have hstep : fillMissing (f :: fs) r orig
          = fillMissing fs (updO r f.field (orig f.field)) orig := by
        show fillMissing fs (match r f.field with
          | some _ => r
          | none => updO r f.field (orig f.field)) orig = _
        rw [hrf]
      rw [hstep, ih]
      by_cases hkf : k = f.field
      · have h1 : updO r f.field (orig f.field) k = orig k := by
          show (if k = f.field then orig f.field else r k) = orig k
          rw [if_pos hkf, hkf]
        rw [h1]
        have hrk : r k = none := by
          rw [hkf]
          exact hrf
        have hlhs : (if (orig k).isSome = true then orig k
            else if k ∈ fs.map (fun g => g.field) then orig k else orig k)
            = orig k := by
          by_cases h2 : (orig k).isSome = true
          · rw [if_pos h2]
          · rw [if_neg h2]
            by_cases h3 : k ∈ fs.map (fun g => g.field)
            · rw [if_pos h3]
            · rw [if_neg h3]
        rw [hlhs, hrk]
        simp only [Option.isSome_none, Bool.false_eq_true, if_false]
        rw [if_pos (hmem.mpr (Or.inl hkf))]
      · have h1 : updO r f.field (orig f.field) k = r k := by
          show (if k = f.field then orig f.field else r k) = r k
          rw [if_neg hkf]
        rw [h1]
        by_cases hs : (r k).isSome = true
        · rw [if_pos hs, if_pos hs]
        · rw [if_neg hs, if_neg hs]
          by_cases hk2 : k ∈ fs.map (fun g => g.field)
          · rw [if_pos hk2, if_pos (hmem.mpr (Or.inr hk2))]
          · rw [if_neg hk2,
              if_neg (fun h => hk2 ((hmem.mp h).resolve_left hkf))]
    · have hstep : fillMissing (f :: fs) r orig = fillMissing fs r orig := by
        show fillMissing fs (match r f.field with
          | some _ => r
          | none => updO r f.field (orig f.field)) orig = _
        rw [hrf]
      rw [hstep, ih]
      by_cases hs : (r k).isSome = true
      · rw [if_pos hs, if_pos hs]
      · rw [if_neg hs, if_neg hs]
        have hkf : k ≠ f.field := by
          intro he
          rw [he, hrf] at hs
          exact hs rfl
        by_cases hk2 : k ∈ fs.map (fun g => g.field)
        · rw [if_pos hk2, if_pos (hmem.mpr (Or.inr hk2))]
        · rw [if_neg hk2,
            if_neg (fun h => hk2 ((hmem.mp h).resolve_left hkf))]

/-- **C8.**  Whenever `Store.Update`'s record construction succeeds —
`r._id` names an existing resource `orig` whose `_v` is the number `v0` —
the record handed to the row log is the schema projection of a merged
resource in which `_v` is `v0 + 1`, every other schema field present in `r`
carries `r`'s value, and every schema field absent from `r` carries
`orig`'s value (keys outside the schema keep `r`'s value). -/
theorem c8_update_merges_missing_fields {N : Type} [LinearOrder N] [Zero N]
    [One N] [Add N] (rmatch : String → String → Bool) (fmtN : N → String)
    (parseN : String → Option N) (st : StoreState N)
    (resource id : String) (r orig : Resource N) (v0 : N)
    (rec : List String)
    (hid : r "_id" = some (.str id))
    (hget : storeGet parseN st resource id = .ok (some orig))
    (hv : orig "_v" = some (.num v0))
    (hup : storeUpdateRecord rmatch fmtN parseN st resource r = .ok rec) :
    ∃ merged,
      schemaRecord rmatch fmtN (st.schemas resource) merged = .ok rec ∧
      merged "_v" = some (.num (v0 + 1)) ∧
      ∀ k, k ≠ "_v" →
        merged k = if (r k).isSome = true then r k
          else if k ∈ (st.schemas resource).map (fun f => f.field)
            then orig k else r k := by
  rcases hdb : st.resources resource with - | db
  · rw [storeUpdateRecord, hdb] at hup
    exact Except.noConfusion hup
  · rw [storeUpdateRecord] at hup
    simp only [hdb, hid, hget, hv] at hup
    rcases hrec : schemaRecord rmatch fmtN (st.schemas resource)
        (updO (fillMissing (st.schemas resource) r orig) "_v"
          (some (.num (v0 + 1)))) with e | rec2
    · rw [hrec] at hup
      exact Except.noConfusion hup
    · rw [hrec] at hup
      injection hup with h2
      refine ⟨updO (fillMissing (st.schemas resource) r orig) "_v"
        (some (.num (v0 + 1))), by rw [hrec, h2], ?_, ?_⟩
      · rw [updO]
        simp
      · intro k hk
        have hupd : updO (fillMissing (st.schemas resource) r orig) "_v"
            (some (.num (v0 + 1))) k
            = fillMissing (st.schemas resource) r orig k := by
          rw [updO]
          simp [hk]
        rw [hupd, fillMissing_char]

/-- Witness row log: a single stored row `["b1", "1", ""]`. -/
def dbW8 : LogState := (csvAppend emptyLog ["b1", "1", ""]).1

/-- Witness store: the `books` collection with `schemaW` and `dbW8`. -/
def stW8 : StoreState Int :=
  ⟨fun c => if c = "books" then schemaW else [],
   fun c => if c = "books" then some dbW8 else none⟩

/-- Witness update payload `{_id: "b1", tags: ["z"]}` (`_v` absent). -/
def rW8 : Resource Int :=
  fun k =>
    if k = "_id" then some (Value.str "b1")
    else if k = "tags" then some (Value.list ["z"])
    else none

/-- The stored original as `storeGet` parses it. -/
def origW8 : Resource Int :=
  updRes (updRes (updRes (emptyRes Int) "_id" (Value.str "b1"))
    "_v" (Value.num 1)) "tags" (Value.list [])

theorem c8_witness :
    ∃ merged,
      schemaRecord (fun _ _ => true) formatInt (stW8.schemas "books") merged
        = Except.ok ["b1", "2", "z"] ∧
      merged "_v" = some (Value.num ((1 : Int) + 1)) ∧
      ∀ k, k ≠ "_v" →
        merged k = if (rW8 k).isSome = true then rW8 k
          else if k ∈ (stW8.schemas "books").map (fun f => f.field)
            then origW8 k else rW8 k :=
  c8_update_merges_missing_fields (fun _ _ => true) formatInt parseInt?
    stW8 "books" "b1" rW8 origW8 1 ["b1", "2", "z"] rfl rfl rfl rfl

/-! ## The authorization evaluator: Go `Store.Authorize`
(src/unnamed/part_004:477-510) -/

/-- One `_permissions` rule, carrying the four fields `Authorize` reads —
text fields, as the `_permissions` schema declares them. -/
structure Rule where
  resource : String
  action : String
  field : String
  role : String
deriving DecidableEq, Repr

/-- The authenticated user as `Authorize` uses it: Go asserts
`user["_id"].(string)` and `user["roles"].([]string)`. -/
structure AUser where
  id : String
  roles : List String
deriving DecidableEq, Repr

/-- The evaluator's outcomes. -/
inductive AuthErr where
  | unauthenticated
  | unauthorized
  | fetchErr : StoreErr → AuthErr
deriving DecidableEq, Repr

/-- Go `Store.Authorize` (part_004:477) over the `_permissions` rules in
storage order (`s.List("_permissions", "")` supplies `perms`); `fetch`
abstracts `s.Get(resource, id)` for the ownership check (its `nil, nil`
result reads as an absent field and the scan continues).  For each rule
matching the collection and action: a public rule (empty field and role)
grants; otherwise an absent user fails *Unauthenticated* immediately; a
role match grants; else with a non-empty id the named field of the fetched
row grants when it equals the user's id (text) or contains it (list);
otherwise the scan continues.  An exhausted scan is *Unauthorized*. -/
def authorize {N : Type}
    (fetch : String → String → Except StoreErr (Option (Resource N)))
    (resource id action : String) (user : Option AUser) :
    List Rule → Except AuthErr Unit
  | [] => .error .unauthorized
  | p :: rest =>
    if p.resource ≠ resource ∨ (p.action ≠ "*" ∧ p.action ≠ action) then
      authorize fetch resource id action user rest
    else if p.field = "" ∧ p.role = "" then .ok ()
    else
      match user with
      | none => .error .unauthenticated
      | some u =>
        if p.role = "*" ∨ u.roles.contains p.role then .ok ()
        else if id ≠ "" then
          match fetch resource id with
          | .error e => .error (.fetchErr e)
          | .ok res =>
            match res.bind (fun m => m p.field) with
            | some (.str owner) =>
              if owner = u.id then .ok ()
              else authorize fetch resource id action user rest
            | some (.list users) =>
              if users.contains u.id then .ok ()
              else authorize fetch resource id action user rest
            | _ => authorize fetch resource id action user rest
        else authorize fetch resource id action user rest

/-- The two-rule permission list of the C2 counterexample: the first
matching rule requires the `admin` role, the second is public. -/
def permsX : List Rule :=
  [⟨"books", "read", "", "admin"⟩, ⟨"books", "read", "", ""⟩]

/-- **C2, counterexample.**  With no user, an earlier matching non-public
rule makes `Authorize` fail *Unauthenticated* at once — the later matching
public rule, which the claim says should still grant access, is never
reached (it does grant when scanned alone, second conjunct). -/
theorem c2_counterexample_stops_at_first_match :
    authorize (N := Int) (fun _ _ => Except.error StoreErr.unknownCollection)
        "books" "" "read" none permsX
      = Except.error AuthErr.unauthenticated
    ∧ authorize (N := Int)
        (fun _ _ => Except.error StoreErr.unknownCollection)
        "books" "" "read" none [⟨"books", "read", "", ""⟩]
      = Except.ok () :=
  ⟨rfl, rfl⟩

/-- **C2 (amended).**  When the user is absent, the scan stops at the first
rule matching the collection and action: it grants iff that rule is public
(empty field and empty role), and fails *Unauthenticated* otherwise — later
matching rules, public or not, are not consulted.  *Unauthorized* is
returned only when no rule matches. -/
theorem c2_anonymous_first_match {N : Type}
    (fetch : String → String → Except StoreErr (Option (Resource N)))
    (resource id action : String) (perms : List Rule) :
    authorize fetch resource id action none perms =
      match perms.find? (fun p => (p.resource == resource)
          && ((p.action == "*") || (p.action == action))) with
      | none => Except.error AuthErr.unauthorized
      | some p =>
        if p.field = "" ∧ p.role = "" then Except.ok ()
        else Except.error AuthErr.unauthenticated := by
  induction perms with
  | nil => rfl
  | cons p rest ih =>
    by_cases hm : p.resource ≠ resource ∨ (p.action ≠ "*" ∧ p.action ≠ action)
    · have hpred : ((p.resource == resource)
          && ((p.action == "*") || (p.action == action))) = false := by
        rcases hm with h | ⟨h1, h2⟩
        · simp [beq_eq_false_iff_ne.mpr h]
        · simp [beq_eq_false_iff_ne.mpr h1, beq_eq_false_iff_ne.mpr h2]
      rw [authorize, if_pos hm, ih,
        List.find?_cons_of_neg _ (by rw [hpred]; exact Bool.false_ne_true)]
    · have hpred : ((p.resource == resource)
          && ((p.action == "*") || (p.action == action))) = true := by
        push_neg at hm
        obtain ⟨h1, h2⟩ := hm
        by_cases h3 : p.action = "*"
        · simp [h1, h3]
        · simp [h1, h2 h3]
      rw [authorize, if_neg hm, List.find?_cons_of_pos _ (by rw [hpred])]

/-! ## The session signer: Go `SignSession` / `VerifySession`
(src/unnamed/part_004:271-297)

`mac` abstracts the keyed signature
`base32(sha256(SessionKey + data))[:16]` — a function of the signed data
whose output, base32 text, never contains `'.'`. -/

/-- Go `SignSession` at Unix time `t`:
`username ++ ":" ++ FormatInt(t) ++ "." ++ mac(data)`. -/
def signSession (mac : String → String) (username : String) (t : Int) :
    String :=
  username ++ ":" ++ formatInt t ++ "." ++ mac (username ++ ":" ++ formatInt t)

/-- Go `VerifySession` at Unix time `now`: split the token on `"."` into
exactly two parts, check the signature, split the payload on `":"` into
exactly two parts, parse the timestamp, accept iff it is younger than
24 hours (86400 seconds). -/
def verifySession (mac : String → String) (session : String) (now : Int) :
    String × Bool :=
  match goSplit '.' session with
  | [data, sig] =>
    if sig ≠ mac data then ("", false)
    else
      match goSplit ':' data with
      | [u, tss] =>
        match parseInt? tss with
        | some ts => if now - ts < 86400 then (u, true) else ("", false)
        | none => ("", false)
      | _ => ("", false)
  | _ => ("", false)

/-- **C7, counterexample.**  For the username `"a.b"` a freshly signed
token (checked at the very second it was signed, well within 24 hours) is
rejected: the verifier splits the token on `"."` and a dot inside the
username yields three parts, not two.  The claim promises acceptance with
`("a.b", true)` for every username. -/
theorem c7_counterexample_dotted_username :
    verifySession (fun _ => "SIG") (signSession (fun _ => "SIG") "a.b" 0) 0
      = ("", false) := rfl

lemma digitChar_ne_dot_colon (d : Nat) (h : d < 10) :
    digitChar d ≠ '.' ∧ digitChar d ≠ ':' := by
  interval_cases d <;> exact ⟨by decide, by decide⟩

lemma toDecAux_digits :
    ∀ (f n : Nat) (acc : List Char),
      (∀ c ∈ acc, ∃ d, d < 10 ∧ c = digitChar d) →
      ∀ c ∈ toDecAux f n acc, ∃ d, d < 10 ∧ c = digitChar d := by
  intro f
  induction f with
  | zero =>
    intro n acc hacc
    exact hacc
  | succ f ih =>
    intro n acc hacc c hc
    rw [toDecAux] at hc
    by_cases h : n < 10
    · rw [if_pos h] at hc
      rcases List.mem_cons.mp hc with hc | hc
      · exact ⟨n, h, hc⟩
      · exact hacc c hc
    · rw [if_neg h] at hc
      refine ih (n / 10) _ ?_ c hc
      intro c2 hc2
      rcases List.mem_cons.mp hc2 with hc2 | hc2
      · exact ⟨n % 10, Nat.mod_lt _ (by omega), hc2⟩
      · exact hacc c2 hc2

lemma formatInt_no_dot_colon (t : Int) :
    '.' ∉ (formatInt t).data ∧ ':' ∉ (formatInt t).data := by
  have hdigits : ∀ c ∈ toDec t.natAbs, ∃ d, d < 10 ∧ c = digitChar d :=
    toDecAux_digits (t.natAbs + 1) t.natAbs [] (by simp)
  have hnum : ∀ c ∈ toDec t.natAbs, c ≠ '.' ∧ c ≠ ':' := by
    intro c hc
    obtain ⟨d, hd, rfl⟩ := hdigits c hc
    exact digitChar_ne_dot_colon d hd
  by_cases hn : t < 0
  · have hdata : (formatInt t).data = '-' :: toDec t.natAbs := by
      rw [formatInt, if_pos hn, data_mk]
    rw [hdata]
    constructor
    · intro hmem
      rcases List.mem_cons.mp hmem with hmem | hmem
      · exact absurd hmem (by decide)
      · exact (hnum _ hmem).1 rfl
    · intro hmem
      rcases List.mem_cons.mp hmem with hmem | hmem
      · exact absurd hmem (by decide)
      · exact (hnum _ hmem).2 rfl
  · have hdata : (formatInt t).data = toDec t.natAbs := by
      rw [formatInt, if_neg hn, data_mk]
    rw [hdata]
    exact ⟨fun hmem => (hnum _ hmem).1 rfl, fun hmem => (hnum _ hmem).2 rfl⟩

lemma data_append (s u : String) : (s ++ u).data = s.data ++ u.data := by
  cases s
  cases u
  rfl

lemma string_data_inj {s u : String} (h : s.data = u.data) : s = u := by
  cases s
  cases u
  cases h
  rfl

lemma goSplit_append (sep : Char) (sepStr x r : String)
    (hs : sepStr.data = [sep])
    (hx : sep ∉ x.data) (hr : sep ∉ r.data) :
    goSplit sep (x ++ sepStr ++ r) = [x, r] := by
  rw [goSplit, data_append, data_append, hs, List.append_assoc]
  have h2 : ([sep] ++ r.data) = sep :: r.data := rfl
  rw [h2, splitOnChar_sep_append sep _ _ hx, splitOnChar_sepFree sep _ hr]
  simp only [List.map_cons, List.map_nil, mk_data]

lemma goSplit_two (sep : Char) (s d g : String)
    (h : goSplit sep s = [d, g]) :
    s.data = d.data ++ sep :: g.data := by
  rw [goSplit] at h
  rcases hp : splitOnChar sep s.data with - | ⟨a, rest⟩
  · rw [hp] at h
    exact absurd h (by simp)
  · rcases rest with - | ⟨b, rest2⟩
    · rw [hp] at h
      exact absurd h (by simp)
    · rcases rest2 with - | ⟨c3, rest3⟩
      · rw [hp] at h
        simp only [List.map_cons, List.map_nil, List.cons.injEq,
          and_true] at h
        obtain ⟨h1, h2⟩ := h
        have hj := joinChar_splitOnChar sep s.data
        rw [hp] at hj
        have ha : a = d.data := by
          rw [← h1]
        have hb : b = g.data := by
          rw [← h2]
        rw [← hj, ha, hb]
        rfl
      · rw [hp] at h
        exact absurd h (by simp)

/-- **C7 (amended).**  For every username containing neither `"."` nor
`":"` (a dot breaks the token split, a colon breaks the payload split —
see the counterexample), a token signed at time `t` and checked at time
`now` verifies, returning `(username, true)`, exactly when `now - t <
86400`; and every token that verifies at `now` is a well-signed token
`u ++ ":" ++ ts ++ "." ++ mac(...)` whose timestamp is younger than 24
hours — so malformed tokens, wrong signatures and stale timestamps are all
rejected.  (`mac` output is base32 text: no `"."`.) -/
theorem c7_session_verify (mac : String → String) (username : String)
    (t now : Int)
    (hmac : ∀ s, '.' ∉ (mac s).data)
    (hu1 : '.' ∉ username.data) (hu2 : ':' ∉ username.data) :
    (verifySession mac (signSession mac username t) now =
      if now - t < 86400 then (username, true) else ("", false))
    ∧ ∀ session, (verifySession mac session now).2 = true →
        ∃ u tss ts,
          session = u ++ ":" ++ tss ++ "." ++ mac (u ++ ":" ++ tss)
          ∧ parseInt? tss = some ts ∧ now - ts < 86400
          ∧ verifySession mac session now = (u, true) := by
  constructor
  · have hfmt := formatInt_no_dot_colon t
    have hdata_dot : '.' ∉ (username ++ ":" ++ formatInt t).data := by
      rw [data_append, data_append]
      intro hm
      rcases List.mem_append.mp hm with hm | hm
      · rcases List.mem_append.mp hm with hm | hm
        · exact hu1 hm
        · have hc : (":" : String).data = [':'] := rfl
          rw [hc] at hm
          rcases List.mem_cons.mp hm with hm | hm
          · exact absurd hm (by decide)
          · exact absurd hm (by simp)
      · exact hfmt.1 hm
    have hsign : signSession mac username t
        = (username ++ ":" ++ formatInt t) ++ "."
          ++ mac (username ++ ":" ++ formatInt t) := rfl
    have hsplit : goSplit '.' (signSession mac username t)
        = [username ++ ":" ++ formatInt t,
           mac (username ++ ":" ++ formatInt t)] := by
      rw [hsign]
      exact goSplit_append '.' "." _ _ rfl hdata_dot (hmac _)
    have hsplit2 : goSplit ':' (username ++ ":" ++ formatInt t)
        = [username, formatInt t] :=
      goSplit_append ':' ":" _ _ rfl hu2 hfmt.2
    simp only [verifySession, hsplit, hsplit2, parseInt_formatInt]
    rw [if_neg (fun h => h rfl)]
  · intro session hver
    rcases hsp : goSplit '.' session with - | ⟨d, rest⟩
    · simp only [verifySession, hsp] at hver
      exact Bool.noConfusion hver
    · rcases rest with - | ⟨g, rest2⟩
      · simp only [verifySession, hsp] at hver
        exact Bool.noConfusion hver
      · rcases rest2 with - | ⟨x3, xs⟩
        · simp only [verifySession, hsp] at hver
          by_cases hsig : g ≠ mac d
          · rw [if_pos hsig] at hver
            exact Bool.noConfusion hver
          · rw [if_neg hsig] at hver
            have hg : g = mac d := not_not.mp hsig
            rcases hsp2 : goSplit ':' d with - | ⟨u, brest⟩
            · simp only [hsp2] at hver
              exact Bool.noConfusion hver
            · rcases brest with - | ⟨tss, brest2⟩
              · simp only [hsp2] at hver
                exact Bool.noConfusion hver
              · rcases brest2 with - | ⟨y3, ys⟩
                · simp only [hsp2] at hver
                  rcases hts : parseInt? tss with - | ts
                  · simp only [hts] at hver
                    exact Bool.noConfusion hver
                  · simp only [hts] at hver
                    by_cases hw : now - ts < 86400
                    · have hd : session.data = d.data ++ '.' :: g.data :=
                        goSplit_two '.' session d g hsp
                      have hdd : d.data = u.data ++ ':' :: tss.data :=
                        goSplit_two ':' d u tss hsp2
                      have hdstr : d = u ++ ":" ++ tss := by
                        apply string_data_inj
                        rw [hdd, data_append, data_append]
                        have hc : (":" : String).data = [':'] := rfl
                        rw [hc]
                        simp [List.append_assoc]
                      refine ⟨u, tss, ts, ?_, hts, hw, ?_⟩
                      · apply string_data_inj
                        rw [hd, hdd, hg, hdstr]
                        rw [data_append, data_append, data_append,
                          data_append]
                        have hc : (":" : String).data = [':'] := rfl
                        have hdot : ("." : String).data = ['.'] := rfl
                        rw [hc, hdot]
                        simp [List.append_assoc]
                      · simp only [verifySession, hsp, if_neg hsig, hsp2,
                          hts, if_pos hw]
                    · rw [if_neg hw] at hver
                      exact Bool.noConfusion hver
                · simp only [hsp2] at hver
                  exact Bool.noConfusion hver
        · simp only [verifySession, hsp] at hver
          exact Bool.noConfusion hver

theorem c7_witness :
    (verifySession (fun _ => "ABCD")
        (signSession (fun _ => "ABCD") "alice" 0) 1000 =
      if (1000 : Int) - 0 < 86400 then ("alice", true) else ("", false))
    ∧ ∀ session,
        (verifySession (fun _ => "ABCD") session 1000).2 = true →
        ∃ u tss ts,
          session = u ++ ":" ++ tss ++ "." ++ "ABCD"
          ∧ parseInt? tss = some ts ∧ (1000 : Int) - ts < 86400
          ∧ verifySession (fun _ => "ABCD") session 1000 = (u, true) :=
  c7_session_verify (fun _ => "ABCD") "alice" 0 1000
    (fun _ => by show '.' ∉ ("ABCD" : String).data; decide)
    (by decide) (by decide)

end Pennybase
